import Mathlib

/-!
Shallow embedding of the federated-types declaration publisher (src/cli.js).

The script locates a federation.config.json manifest, drives TypeScript
declaration emission, rewrites the emitted internal module identifiers to
public dotted names, synthesizes alias re-export blocks, and publishes the
declaration file together with a package descriptor and an index file.

Strings are modelled by Lean strings (lists of characters); the JavaScript
string and regex operations the script uses are defined below character by
character, so that every definition evaluates by kernel reduction.
-/

namespace FederatedTypes

/-- Line terminator characters, exactly the characters a JavaScript regex
dot does not match: newline, carriage return, line separator, paragraph
separator. -/
def isLineTerm (c : Char) : Bool :=
  c == '\n' || c == '\r' || c == '\u2028' || c == '\u2029'

/-- Characters of a list before the first line terminator. -/
def takeLine (l : List Char) : List Char :=
  l.takeWhile (fun c => !isLineTerm c)

/-- Split a list at the last double quote it contains: the result is
some (before, after) when the list is before ++ quote ++ after and after
holds no quote; none when the list holds no quote at all. -/
def lastQuoteSplit : List Char → Option (List Char × List Char)
  | [] => none
  | c :: rest =>
    match lastQuoteSplit rest with
    | some (b, a) => some (c :: b, a)
    | none => if c == '"' then some ([], rest) else none

/-- Literal header of the module pattern built on cli.js line 93: the
regex matching the text (declare module ) followed by an opening quote. -/
def declModuleOpen : List Char := "declare module \"".data

/-- Global exec loop of the module-header regex with greedy capture
(cli.js lines 93-98).  At a candidate position the literal header must
match and a closing quote must occur later on the same line; the greedy
capture then extends to the last quote on that line, and scanning resumes
after that quote, as the lastIndex bookkeeping of a g-flagged regex does.
The fuel argument only bounds the recursion; the wrapper passes the length
of the text, and every recursive step strictly consumes text, so the bound
is never reached before the text is exhausted. -/
def extractFuel : Nat → List Char → List (List Char)
  | 0, _ => []
  | _ + 1, [] => []
  | n + 1, c :: rest =>
    if declModuleOpen.isPrefixOf (c :: rest) then
      match lastQuoteSplit (takeLine ((c :: rest).drop declModuleOpen.length)) with
      | some (cap, _) =>
        cap :: extractFuel n (((c :: rest).drop declModuleOpen.length).drop (cap.length + 1))
      | none => extractFuel n rest
    else extractFuel n rest

/-- All captures of the global module-header regex in order of appearance,
the moduleNames array collected by cli.js lines 94-98. -/
def extractModuleNames (blob : String) : List String :=
  (extractFuel blob.data.length blob.data).map (fun l => String.mk l)

/-- JS String.prototype.includes: occurrence of pat as a contiguous
substring. -/
def containsSubstrL : List Char → List Char → Bool
  | [], pat => pat.isEmpty
  | c :: rest, pat => pat.isPrefixOf (c :: rest) || containsSubstrL rest pat

/-- String wrapper of containsSubstrL. -/
def containsSubstr (s pat : String) : Bool := containsSubstrL s.data pat.data

/-- Left-to-right non-overlapping replacement of every occurrence of pat by
rep: the effect of JS String.prototype.replace with a g-flagged regex whose
pattern denotes the literal text pat.  The script splices the module
identifier between two quote characters to build the regex source (cli.js
line 103); for identifiers free of regex metacharacters that regex denotes
exactly this literal pattern, which is the only form the concrete theorems
below evaluate.  Fuel as in extractFuel: the wrapper passes the text
length, and with the nonempty quoted patterns the script builds, every
step strictly consumes text. -/
def replaceFuel : Nat → List Char → List Char → List Char → List Char
  | 0, s, _, _ => s
  | _ + 1, [], _, _ => []
  | n + 1, c :: rest, pat, rep =>
    if pat.isPrefixOf (c :: rest) then
      rep ++ replaceFuel n ((c :: rest).drop pat.length) pat rep
    else
      c :: replaceFuel n rest pat rep

/-- Wrapper of replaceFuel at full fuel. -/
def replaceAllL (s pat rep : List Char) : List Char :=
  replaceFuel s.length s pat rep

/-- Number of left-to-right non-overlapping occurrences of pat in s. -/
def countOccurFuel : Nat → List Char → List Char → Nat
  | 0, _, _ => 0
  | _ + 1, [], _ => 0
  | n + 1, c :: rest, pat =>
    if pat.isPrefixOf (c :: rest) then
      1 + countOccurFuel n ((c :: rest).drop pat.length) pat
    else countOccurFuel n rest pat

/-- String wrapper of countOccurFuel at full fuel. -/
def countOccur (s pat : String) : Nat :=
  countOccurFuel s.data.length s.data pat.data

/-- JS String.prototype.endsWith: suffix test, as applied to the exposed
source paths on cli.js line 102. -/
def endsWithJs (s pat : String) : Bool := pat.data.isSuffixOf s.data

/-- Split a character list at forward slashes. -/
def splitOnSlash : List Char → List (List Char)
  | [] => [[]]
  | c :: rest =>
    if c == '/' then [] :: splitOnSlash rest
    else
      match splitOnSlash rest with
      | s :: ss => (c :: s) :: ss
      | [] => [[c]]

/-- Node path normalization segment pass: empty and single-dot segments are
dropped, and a dot-dot segment pops the accumulated path (disappearing at
the root of an absolute path, kept leading on a relative path). -/
def normSegsAux (absFlag : Bool) : List (List Char) → List (List Char) → List (List Char)
  | acc, [] => acc.reverse
  | acc, s :: rest =>
    if s.isEmpty || s == ['.'] then normSegsAux absFlag acc rest
    else if s == ['.', '.'] then
      match acc with
      | [] =>
        if absFlag then normSegsAux absFlag [] rest
        else normSegsAux absFlag [['.', '.']] rest
      | t :: ts =>
        if t == ['.', '.'] then normSegsAux absFlag (s :: acc) rest
        else normSegsAux absFlag ts rest
    else normSegsAux absFlag (s :: acc) rest

/-- Rejoin path segments with slashes. -/
def joinSegs : List (List Char) → List Char
  | [] => []
  | [s] => s
  | s :: rest => s ++ '/' :: joinSegs rest

/-- Node path.normalize for the path shapes the script builds (trailing
slashes are not preserved, which only matters to path.resolve, the variant
the script applies to its output paths). -/
def pathNormalize (s : String) : String :=
  let absFlag : Bool := match s.data with | '/' :: _ => true | _ => false
  match normSegsAux absFlag [] (splitOnSlash s.data) with
  | [] => if absFlag then "/" else "."
  | segs => String.mk ((if absFlag then ['/'] else []) ++ joinSegs segs)

/-- Node path.join of two parts: empty parts dropped, the rest joined with
a slash and normalized (cli.js line 65, and the node-modules marker path of
line 125). -/
def pathJoin (a b : String) : String :=
  match (if a == "" then [] else [a]) ++ (if b == "" then [] else [b]) with
  | [] => "."
  | parts => pathNormalize (String.intercalate "/" parts)

/-- Node path.resolve of a base directory and one further part, for the
parts the script passes: an absolute second part wins outright, and
resolution against the current working directory is modelled by keeping
such paths relative to it. -/
def pathResolve (a b : String) : String :=
  match b.data with
  | '/' :: _ => pathNormalize b
  | _ => pathJoin a b

/-- Federation manifest: the parsed federation.config.json, a name plus the
exposes object as an ordered key-value list (JSON object keys are unique
and listed in declaration order). -/
structure FederationConfig where
  name : String
  exposes : List (String × String)

/-- getModuleDeclareName of cli.js lines 63-66: path.join of the manifest
name and the expose name, with every backslash and slash rewritten to a
forward slash. -/
def getModuleDeclareName (cfgName exposeName : String) : String :=
  String.mk ((pathJoin cfgName exposeName).data.map
    (fun c => if c == '\\' || c == '/' then '/' else c))

/-- Head of the destructured filter on cli.js line 102: the first expose
key whose source path ends with the identifier, defaulting to the
identifier itself when no key matches. -/
def chooseExposeName (exposes : List (String × String)) (nm : String) : String :=
  match exposes.filter (fun kv => endsWithJs kv.2 nm) with
  | [] => nm
  | kv :: _ => kv.1

/-- Rest pattern (the aliases) of the same destructured filter. -/
def aliasKeys (exposes : List (String × String)) (nm : String) : List String :=
  match exposes.filter (fun kv => endsWithJs kv.2 nm) with
  | [] => []
  | _ :: t => t.map (fun kv => kv.1)

/-- Template literal createAliasModule of cli.js lines 108-112, whitespace
included. -/
def createAliasModule (cfgName moduleDeclareName aliasKey : String) : String :=
  "\n            declare module \"" ++ getModuleDeclareName cfgName aliasKey ++
    "\" \x7b\n                export * from \"" ++ moduleDeclareName ++
    "\"\n            \x7d\n        "

/-- Replacement of the quoted-identifier regex of cli.js line 103 applied
to the whole accumulated text (line 115). -/
def replaceQuoted (typing nm repl : String) : String :=
  String.mk (replaceAllL typing.data ('"' :: nm.data ++ ['"']) ('"' :: repl.data ++ ['"']))

/-- Body of the moduleNames.forEach callback, cli.js lines 100-118: replace
every quoted occurrence of the identifier by the quoted module declare
name, then append one synthesized alias module per remaining matching
expose key, the pieces joined by newlines. -/
def rewriteStep (cfg : FederationConfig) (typing : String) (nm : String) : String :=
  let moduleDeclareName := getModuleDeclareName cfg.name (chooseExposeName cfg.exposes nm)
  String.intercalate "\n"
    (replaceQuoted typing nm moduleDeclareName ::
      (aliasKeys cfg.exposes nm).map (fun a => createAliasModule cfg.name moduleDeclareName a))

/-- Whole identifier-rewriting stage, cli.js lines 91-118: collect the
module names from the emitted text once, then fold the rewrite step over
them, threading the accumulated text. -/
def generateTyping (cfg : FederationConfig) (blob : String) : String :=
  (extractModuleNames blob).foldl (rewriteStep cfg) blob

example : extractModuleNames "declare module \"src/Button\" \x7b\n\x7d\n" = ["src/Button"] := by
  decide

example : getModuleDeclareName "app" "./Button" = "app/Button" := by decide

example : pathJoin "node_modules" "@types" = "node_modules/@types" := by decide

/-- Directory tree entry as fs.readdirSync lists it: a name plus, for a
directory, its own listing in order. -/
inductive Entry where
  | file : String → Entry
  | dir : String → List Entry → Entry

/-- Name component of an entry. -/
def entryName : Entry → String
  | .file n => n
  | .dir n _ => n

/-- Queueing test of cli.js line 39: the entry is a directory whose joined
path does not contain the text node_modules. -/
def queueable (base : String) : Entry → Bool
  | .file _ => false
  | .dir n _ => !containsSubstr (pathJoin base n) "node_modules"

/-- Walk of the pending queue of cli.js lines 44-46: the loop body returns
on its first iteration, so only the first queueable directory is ever
entered, and entering it re-runs the whole search one level down (the
inlined match is that search, repeated here for the sake of the
recursion). -/
def firstQueued : String → List Entry → Option String
  | _, [] => none
  | base, .file _ :: rest => firstQueued base rest
  | base, .dir n cs :: rest =>
    if containsSubstr (pathJoin base n) "node_modules" then firstQueued base rest
    else
      match cs.find? (fun e => entryName e == "federation.config.json") with
      | some e => some (pathJoin (pathJoin base n) (entryName e))
      | none => firstQueued (pathJoin base n) cs

/-- findFederationConfig of cli.js lines 30-47: return the path of the
first child named federation.config.json (the name test precedes the
directory test, so it applies to every kind of entry); otherwise recurse
into the first queueable child directory only, and into nothing else.  The
source wraps the returned path in path.resolve against the working
directory; the model keeps it relative to that directory. -/
def findFederationConfig (base : String) (children : List Entry) : Option String :=
  match children.find? (fun e => entryName e == "federation.config.json") with
  | some e => some (pathJoin base (entryName e))
  | none => firstQueued base children

/-- JS Array.prototype.indexOf on the argument vector: index of the first
occurrence, none when absent. -/
def jsIndexOf : List String → String → Option Nat
  | [], _ => none
  | a :: rest, x => if a == x then some 0 else (jsIndexOf rest x).map (fun i => i + 1)

/-- JS index access argv at i: none past the end, as the undefined result. -/
def jsAt : List String → Nat → Option String
  | [], _ => none
  | a :: _, 0 => some a
  | _ :: rest, n + 1 => jsAt rest n

/-- getArg of cli.js lines 19-22: the argument after the first occurrence
of the flag; none both when the flag is absent (the null branch of the
source) and when the flag is the final argument (the out-of-range index
access yielding undefined). -/
def getArg (argv : List String) (argName : String) : Option String :=
  match jsIndexOf argv argName with
  | some i => jsAt argv (i + 1)
  | none => none

/-- JS truthiness of the looked-up flag value: null, undefined and the
empty string are all falsy. -/
def truthyArg : Option String → Bool
  | none => false
  | some v => v != ""

/-- outputDir of cli.js lines 24-28: the flag value resolved against the
working directory when truthy, else the shared type-declarations directory
under the nearest node_modules directory. -/
def resolveOutputDir (argv : List String) (nodeModulesDir : String) : String :=
  let outDirArg := getArg argv "--outputDir"
  if truthyArg outDirArg then pathResolve "." (outDirArg.getD "")
  else pathResolve nodeModulesDir "@types/__federated_types/"

/-- File system contents relevant to the run: an association of paths to
file contents. -/
abbrev FsState := List (String × String)

/-- Contents at a path. -/
def fsLookup (fs : FsState) (p : String) : Option String :=
  (fs.find? (fun e => e.1 == p)).map (fun e => e.2)

/-- Effect of fs.unlinkSync guarded by fs.existsSync (cli.js lines
69-71): the path no longer holds a file. -/
def fsRemove (fs : FsState) (p : String) : FsState :=
  fs.filter (fun e => e.1 != p)

/-- Effect of fs.writeFileSync: the path holds exactly the new contents. -/
def fsWrite (fs : FsState) (p c : String) : FsState :=
  (p, c) :: fsRemove fs p

/-- fs.existsSync. -/
def fsExists (fs : FsState) (p : String) : Bool :=
  (fsLookup fs p).isSome

/-- Outcome of the external emission engine (program.emit on cli.js line
83), the black box of the specification: it reports emitSkipped having
produced nothing, or it writes the aggregate declaration blob to the
target file, or it throws and the top-level catch fires. -/
inductive EmitResult where
  | skipped
  | emitted (blob : String)
  | throws

/-- Inputs of one run: the argument vector, the nearest node_modules
directory located for the script, the working-directory listing, the
parsed manifest, the engine outcome, and the contents of the bundled
descriptor template typings.package.tmpl.json shipped next to the
script. -/
structure RunInput where
  argv : List String
  nodeModulesDir : String
  tree : List Entry
  config : FederationConfig
  emit : EmitResult
  template : String

/-- Observable outcome of a run: exit status, final file system, and the
messages printed to the standard error channel. -/
structure RunOutcome where
  exitCode : Nat
  fs : FsState
  stderr : List String

/-- Resolved output directory of the run. -/
def outputDirOf (inp : RunInput) : String :=
  resolveOutputDir inp.argv inp.nodeModulesDir

/-- outFile of cli.js line 61. -/
def outFilePath (inp : RunInput) : String :=
  pathResolve (outputDirOf inp) (inp.config.name ++ ".d.ts")

/-- packageJsonPath of cli.js line 126. -/
def packageJsonPath (inp : RunInput) : String :=
  pathResolve (outputDirOf inp) "package.json"

/-- indexPath of cli.js line 139. -/
def indexFilePath (inp : RunInput) : String :=
  pathResolve (outputDirOf inp) "index.d.ts"

/-- File system state right after the guarded unlink of cli.js lines 69-71,
the state in which the emission engine is then invoked. -/
def preEmitFs (inp : RunInput) (fs0 : FsState) : FsState :=
  fsRemove fs0 (outFilePath inp)

/-- importStatement of cli.js line 140. -/
def importStatementOf (name : String) : String :=
  "export * from \x27./" ++ name ++ "\x27;"

/-- Index update of cli.js lines 142-151 as a content transformation:
create the contents as the single re-export line, or append that line only
when it does not already occur in the existing contents. -/
def updateIndex (existing : Option String) (name : String) : String :=
  match existing with
  | none => importStatementOf name ++ "\n"
  | some contents =>
    if containsSubstr contents (importStatementOf name) then contents
    else contents ++ importStatementOf name ++ "\n"

/-- Package descriptor stage, cli.js lines 124-136: when the output
directory path contains the joined node_modules @types marker and no
descriptor exists yet, copy the bundled template there; in every other
case leave the file system untouched. -/
def pkgStage (inp : RunInput) (fs : FsState) : FsState :=
  if containsSubstr (outputDirOf inp) (pathJoin "node_modules" "@types") then
    if fsExists fs (packageJsonPath inp) then fs
    else fsWrite fs (packageJsonPath inp) inp.template
  else fs

/-- Index stage, cli.js lines 138-151: create the index file holding the
single re-export line, or append that line to the existing contents unless
it already occurs in them. -/
def indexStage (inp : RunInput) (fs : FsState) : FsState :=
  match fsLookup fs (indexFilePath inp) with
  | none => fsWrite fs (indexFilePath inp) (importStatementOf inp.config.name ++ "\n")
  | some contents =>
    if containsSubstr contents (importStatementOf inp.config.name) then fs
    else fsWrite fs (indexFilePath inp) (contents ++ importStatementOf inp.config.name ++ "\n")

/-- One full run of the script over its observable effects, cli.js lines
49-157: search for the manifest from the working directory (exit 1 with
the error message when absent), unlink any previous declaration file,
invoke the engine (exit 0 on skip; exit 1 through the top-level catch on a
throw, whose message carries the ERROR prefix), write the emitted blob,
rewrite it and write the declaration file again, then run the package
descriptor and index stages. -/
def runCli (inp : RunInput) (fs0 : FsState) : RunOutcome :=
  match findFederationConfig "./" inp.tree with
  | none =>
    ⟨1, fs0, ["ERROR: Unable to find a federation.config.json file in this package"]⟩
  | some _ =>
    match inp.emit with
    | .skipped => ⟨0, preEmitFs inp fs0, []⟩
    | .throws => ⟨1, preEmitFs inp fs0, ["ERROR:"]⟩
    | .emitted blob =>
      ⟨0,
        indexStage inp (pkgStage inp
          (fsWrite (fsWrite (preEmitFs inp fs0) (outFilePath inp) blob)
            (outFilePath inp) (generateTyping inp.config blob))),
        []⟩

/-- Manifest of the alias example: name app, the keys ./Button and ./Btn
both exposing src/Button.ts. -/
def exampleCfg : FederationConfig :=
  ⟨"app", [("./Button", "src/Button.ts"), ("./Btn", "src/Button.ts")]⟩

/-- Emitted declaration blob of the alias example: one declared module
carrying the internal identifier of the shared source file. -/
def exampleBlob : String :=
  "declare module \"src/Button.ts\" \x7b\n    export const Button: string;\n\x7d\n"

/-- Manifest of the duplicate-identifier example: two keys exposing the
same source path src/A, so the identifier A has one alias. -/
def dupCfg : FederationConfig := ⟨"app", [("./A", "src/A"), ("./B", "src/A")]⟩

/-- Blob of the duplicate-identifier example: the same declared module
header occurs twice. -/
def dupBlob : String := "declare module \"A\" \x7b\n\x7d\ndeclare module \"A\" \x7b\n\x7d"

/-- Run input of the emission-skip example: manifest found at the top of
the working directory, engine reports skip. -/
def skipInput : RunInput :=
  ⟨["node", "cli.js"], "node_modules", [Entry.file "federation.config.json"],
    ⟨"app", [("./A", "src/A")]⟩, EmitResult.skipped, "TEMPLATE"⟩

/-- Declaration path of the example runs. -/
def exOutPath : String := "node_modules/@types/__federated_types/app.d.ts"

/-- Initial file system of the skip example: a previously published
declaration file. -/
def skipFs0 : FsState := [(exOutPath, "previously published")]

/-- Run input of the engine-throw example. -/
def throwInput : RunInput :=
  ⟨["node", "cli.js"], "node_modules", [Entry.file "federation.config.json"],
    ⟨"app", [("./A", "src/A")]⟩, EmitResult.throws, "TEMPLATE"⟩

/-- Run input of the successful-emission example. -/
def emitInput : RunInput :=
  ⟨["node", "cli.js"], "node_modules", [Entry.file "federation.config.json"],
    ⟨"app", [("./A", "src/A")]⟩,
    EmitResult.emitted "declare module \"src/A\" \x7b\n\x7d\n", "TEMPLATE"⟩

/-- Package descriptor path of the example runs. -/
def exPkgPath : String := "node_modules/@types/__federated_types/package.json"

/-- Initial file system of the descriptor example: a hand-edited package
descriptor already in place. -/
def pkgFs0 : FsState := [(exPkgPath, "custom contents")]

/-- Run input of the missing-manifest example: the working directory holds
a single empty directory and no manifest anywhere. -/
def missInput : RunInput :=
  ⟨["node", "cli.js"], "node_modules", [Entry.dir "src" []],
    ⟨"app", [("./A", "src/A")]⟩, EmitResult.skipped, "TEMPLATE"⟩

/-- A list is a Boolean prefix of itself followed by anything. -/
theorem isPrefixOf_append_self (pat b : List Char) : pat.isPrefixOf (pat ++ b) = true := by
  induction pat with
  | nil => simp [List.isPrefixOf]
  | cons c cs ih => simp [List.isPrefixOf, ih]

/-- The empty pattern occurs in every text. -/
theorem containsSubstrL_nil_pat (l : List Char) : containsSubstrL l [] = true := by
  cases l <;> simp [containsSubstrL, List.isPrefixOf]

/-- A pattern occurs in any text that carries it between two arbitrary
pieces. -/
theorem containsSubstrL_append (a pat b : List Char) :
    containsSubstrL (a ++ pat ++ b) pat = true := by
  induction a with
  | nil =>
    cases pat with
    | nil => simpa using containsSubstrL_nil_pat b
    | cons p ps => simp [containsSubstrL, List.isPrefixOf, isPrefixOf_append_self]
  | cons c a2 ih =>
    simp only [List.cons_append, containsSubstrL, Bool.or_eq_true]
    right
    exact ih

/-- String version of containsSubstrL_append. -/
theorem containsSubstr_append_middle (a pat b : String) :
    containsSubstr (a ++ pat ++ b) pat = true := by
  have h : (a ++ pat ++ b).data = a.data ++ pat.data ++ b.data := by
    simp
  rw [containsSubstr, h]
  exact containsSubstrL_append a.data pat.data b.data

/-- Unfolding of fsLookup over a nonempty association list. -/
theorem fsLookup_cons (e : String × String) (rest : FsState) (q : String) :
    fsLookup (e :: rest) q = if (e.1 == q) = true then some e.2 else fsLookup rest q := by
  by_cases h : (e.1 == q) = true
  · simp [fsLookup, List.find?_cons_of_pos _ h, h]
  · have hf : (e.1 == q) = false := by simpa using h
    simp [fsLookup, List.find?_cons_of_neg, hf]

/-- Removing a path removes it. -/
theorem fsLookup_fsRemove_self (fs : FsState) (p : String) :
    fsLookup (fsRemove fs p) p = none := by
  induction fs with
  | nil => rfl
  | cons e rest ih =>
    rw [fsRemove, List.filter_cons]
    by_cases he : e.1 = p
    · rw [if_neg (by simp [he])]
      exact ih
    · rw [if_pos (by simp [he])]
      rw [fsLookup_cons, if_neg (by simp [he])]
      exact ih

/-- Removing a path leaves every other path alone. -/
theorem fsLookup_fsRemove_ne (fs : FsState) (p q : String) (h : q ≠ p) :
    fsLookup (fsRemove fs p) q = fsLookup fs q := by
  induction fs with
  | nil => rfl
  | cons e rest ih =>
    rw [fsRemove, List.filter_cons]
    by_cases he : e.1 = p
    · rw [if_neg (by simp [he])]
      conv_rhs => rw [fsLookup_cons]
      rw [if_neg (by simp only [beq_iff_eq, he]; exact fun hpq => h hpq.symm)]
      exact ih
    · rw [if_pos (by simp [he])]
      rw [fsLookup_cons]
      conv_rhs => rw [fsLookup_cons]
      by_cases heq : (e.1 == q) = true
      · rw [if_pos heq, if_pos heq]
      · rw [if_neg heq, if_neg heq]
        exact ih

/-- Writing a path makes it hold the written contents. -/
theorem fsLookup_fsWrite_self (fs : FsState) (p c : String) :
    fsLookup (fsWrite fs p c) p = some c := by
  rw [fsWrite, fsLookup_cons]
  rw [if_pos (by simp)]

/-- Writing a path leaves every other path alone. -/
theorem fsLookup_fsWrite_ne (fs : FsState) (p q c : String) (h : q ≠ p) :
    fsLookup (fsWrite fs p c) q = fsLookup fs q := by
  rw [fsWrite, fsLookup_cons]
  rw [if_neg (by simp only [beq_iff_eq]; exact fun hpq => h hpq.symm)]
  exact fsLookup_fsRemove_ne fs p q h

/-- The package descriptor stage never changes an existing descriptor. -/
theorem pkgStage_preserved (inp : RunInput) (fs : FsState) (c : String)
    (h : fsLookup fs (packageJsonPath inp) = some c) :
    fsLookup (pkgStage inp fs) (packageJsonPath inp) = some c := by
  unfold pkgStage
  split
  · simp [fsExists, h]
  · exact h

/-- Outside a node_modules @types output directory the package descriptor
stage does nothing at all. -/
theorem pkgStage_not_under_root (inp : RunInput) (fs : FsState)
    (h : containsSubstr (outputDirOf inp) (pathJoin "node_modules" "@types") = false) :
    pkgStage inp fs = fs := by
  simp [pkgStage, h]

/-- The package descriptor stage touches no other path. -/
theorem fsLookup_pkgStage_other (inp : RunInput) (fs : FsState) (q : String)
    (h : q ≠ packageJsonPath inp) :
    fsLookup (pkgStage inp fs) q = fsLookup fs q := by
  unfold pkgStage
  split
  · split
    · rfl
    · exact fsLookup_fsWrite_ne fs (packageJsonPath inp) q inp.template h
  · rfl

/-- The index stage touches no other path. -/
theorem fsLookup_indexStage_other (inp : RunInput) (fs : FsState) (q : String)
    (h : q ≠ indexFilePath inp) :
    fsLookup (indexStage inp fs) q = fsLookup fs q := by
  cases hx : fsLookup fs (indexFilePath inp) with
  | none =>
    simp only [indexStage, hx]
    exact fsLookup_fsWrite_ne fs (indexFilePath inp) q _ h
  | some contents =>
    by_cases hc : containsSubstr contents (importStatementOf inp.config.name) = true
    · simp only [indexStage, hx, hc, if_true]
    · simp only [Bool.not_eq_true] at hc
      simp only [indexStage, hx, hc, Bool.false_eq_true, if_false]
      exact fsLookup_fsWrite_ne fs (indexFilePath inp) q _ h

/-- After the index stage, the index file holds exactly the updateIndex
transformation of its previous contents. -/
theorem indexStage_content (inp : RunInput) (fs : FsState) :
    fsLookup (indexStage inp fs) (indexFilePath inp) =
      some (updateIndex (fsLookup fs (indexFilePath inp)) inp.config.name) := by
  cases hx : fsLookup fs (indexFilePath inp) with
  | none => simp [indexStage, updateIndex, hx, fsLookup_fsWrite_self]
  | some contents =>
    by_cases hc : containsSubstr contents (importStatementOf inp.config.name) = true
    · simp [indexStage, updateIndex, hx, hc]
    · simp only [Bool.not_eq_true] at hc
      simp [indexStage, updateIndex, hx, hc, fsLookup_fsWrite_self]

/-- Head test used when a flag is absent from an argument list. -/
theorem head_beq_false (a x : String) (rest : List String) (h : x ∉ a :: rest) :
    (a == x) = false := by
  simp only [beq_eq_false_iff_ne]
  intro e
  exact h (by rw [← e]; exact List.mem_cons_self a rest)

/-- Membership weakening to the tail. -/
theorem not_mem_tail (a x : String) (rest : List String) (h : x ∉ a :: rest) : x ∉ rest :=
  fun hm => h (List.mem_cons_of_mem a hm)

/-- JS indexOf misses an absent element. -/
theorem jsIndexOf_not_mem (l : List String) (x : String) (h : x ∉ l) :
    jsIndexOf l x = none := by
  induction l with
  | nil => rfl
  | cons a rest ih =>
    simp [jsIndexOf, head_beq_false a x rest h, ih (not_mem_tail a x rest h)]

/-- JS indexOf finds an element appended after all non-occurrences at the
index equal to the length of the preceding list. -/
theorem jsIndexOf_append_last (pre : List String) (x : String) (h : x ∉ pre) :
    jsIndexOf (pre ++ [x]) x = some pre.length := by
  induction pre with
  | nil => simp [jsIndexOf]
  | cons a rest ih =>
    have h2 : x ∉ rest ++ [x] → False := by simp
    simp [jsIndexOf, head_beq_false a x rest (fun hm => h hm),
      ih (not_mem_tail a x rest (fun hm => h hm))]

/-- Index access one past a final element is out of range. -/
theorem jsAt_append_last_none (pre : List String) (x : String) :
    jsAt (pre ++ [x]) (pre.length + 1) = none := by
  induction pre with
  | nil => rfl
  | cons a rest ih => simpa [jsAt] using ih

/-- The queue walk ignores a leading block of non-queueable entries. -/
theorem firstQueued_append_not_queueable (base : String) (pre l : List Entry)
    (hpre : ∀ e ∈ pre, queueable base e = false) :
    firstQueued base (pre ++ l) = firstQueued base l := by
  induction pre with
  | nil => rfl
  | cons e rest ih =>
    have hrest : ∀ x ∈ rest, queueable base x = false :=
      fun x hx => hpre x (List.mem_cons_of_mem _ hx)
    cases e with
    | file nm => simpa [firstQueued] using ih hrest
    | dir nm cs =>
      have hq := hpre (Entry.dir nm cs) (List.mem_cons_self _ _)
      have hc : containsSubstr (pathJoin base nm) "node_modules" = true := by
        simpa [queueable] using hq
      simpa [firstQueued, hc] using ih hrest

/-- A listing in which no entry has the manifest name yields no hit in the
first scan. -/
theorem find_config_none (children : List Entry)
    (h : ∀ e ∈ children, entryName e ≠ "federation.config.json") :
    children.find? (fun e => entryName e == "federation.config.json") = none := by
  rw [List.find?_eq_none]
  intro e he
  simpa using h e he

/-- C5: for every internal module identifier, the expose name chosen for it
is the first manifest-order expose key whose source path ends with the
identifier (a suffix test, not an equality test), and the identifier itself
when no source path ends with it. -/
theorem c5_expose_name_choice (exposes : List (String × String)) (nm : String) :
    chooseExposeName exposes nm =
      ((exposes.find? (fun kv => endsWithJs kv.2 nm)).map (fun kv => kv.1)).getD nm := by
  induction exposes with
  | nil => rfl
  | cons kv rest ih =>
    by_cases h : endsWithJs kv.2 nm = true
    · simp [chooseExposeName, List.filter_cons, List.find?_cons_of_pos _ h, h]
    · have hf : endsWithJs kv.2 nm = false := by simpa using h
      simp only [chooseExposeName, List.filter_cons, List.find?_cons, hf,
        Bool.false_eq_true, if_false]
      exact ih

/-- C6: updating the index file is idempotent: applying the index content
transformation to its own output leaves the contents unchanged, because
the re-export line is appended only when it does not already occur as a
substring, so running the tool twice for the same manifest never appends a
duplicate line. -/
theorem c6_index_update_idempotent (prev : Option String) (name : String) :
    updateIndex (some (updateIndex prev name)) name = updateIndex prev name := by
  cases prev with
  | none =>
    have h2 := containsSubstrL_append [] (importStatementOf name).data "\n".data
    simp only [List.nil_append] at h2
    have h : containsSubstr (importStatementOf name ++ "\n") (importStatementOf name) = true := by
      rw [containsSubstr]
      have hd : (importStatementOf name ++ "\n").data =
          (importStatementOf name).data ++ "\n".data := by simp
      rw [hd]
      exact h2
    simp [updateIndex, h]
  | some contents =>
    by_cases hc : containsSubstr contents (importStatementOf name) = true
    · simp [updateIndex, hc]
    · have hc2 : containsSubstr contents (importStatementOf name) = false := by simpa using hc
      have h : containsSubstr (contents ++ importStatementOf name ++ "\n")
          (importStatementOf name) = true :=
        containsSubstr_append_middle contents (importStatementOf name) "\n"
      simp [updateIndex, hc2, h]

/-- C10: when the outputDir flag is the final argument with no value after
it, the flag lookup yields none and the tool behaves exactly as with the
flag absent, resolving the default shared type-declarations directory
under the nearest node_modules directory. -/
theorem c10_trailing_flag_like_absent (pre : List String) (nodeModulesDir : String)
    (h : "--outputDir" ∉ pre) :
    getArg (pre ++ ["--outputDir"]) "--outputDir" = none ∧
    resolveOutputDir (pre ++ ["--outputDir"]) nodeModulesDir =
      resolveOutputDir pre nodeModulesDir ∧
    resolveOutputDir (pre ++ ["--outputDir"]) nodeModulesDir =
      pathResolve nodeModulesDir "@types/__federated_types/" := by
  have h1 : getArg (pre ++ ["--outputDir"]) "--outputDir" = none := by
    simp only [getArg, jsIndexOf_append_last pre _ h]
    exact jsAt_append_last_none pre _
  have h2 : getArg pre "--outputDir" = none := by
    simp only [getArg, jsIndexOf_not_mem pre _ h]
  refine ⟨h1, ?_, ?_⟩
  · simp only [resolveOutputDir, h1, h2]
  · simp only [resolveOutputDir, h1, truthyArg, Bool.false_eq_true, if_false]

/-- C10 witness: a concrete argument vector ending in the flag. -/
theorem c10_trailing_flag_like_absent_witness :
    "--outputDir" ∉ ["node", "cli.js"] ∧
    (getArg (["node", "cli.js"] ++ ["--outputDir"]) "--outputDir" = none ∧
      resolveOutputDir (["node", "cli.js"] ++ ["--outputDir"]) "node_modules" =
        resolveOutputDir ["node", "cli.js"] "node_modules" ∧
      resolveOutputDir (["node", "cli.js"] ++ ["--outputDir"]) "node_modules" =
        pathResolve "node_modules" "@types/__federated_types/") :=
  ⟨by decide, c10_trailing_flag_like_absent ["node", "cli.js"] "node_modules" (by decide)⟩

set_option maxRecDepth 8192 in
/-- C4 counterexample: in the duplicate-identifier example the extracted
moduleNames list keeps both occurrences of the identifier A instead of
removing duplicates before processing, and the rewriter synthesizes the
alias block for app/B twice, so the rewrite of A, alias-block synthesis
included, is performed more than once. -/
theorem c4_counterexample :
    extractModuleNames dupBlob = ["A", "A"] ∧
    countOccur (generateTyping dupCfg dupBlob) "declare module \"app/B\"" = 2 := by
  constructor
  · decide
  · decide

/-- C4 amended: the rewriter processes the extracted identifier occurrences
in order of appearance without removing duplicates, so an identifier whose
declare-module header occurs twice has the rewrite step, alias-block
synthesis included, applied once per occurrence. -/
theorem c4_amended_per_occurrence (cfg : FederationConfig) (typing nm : String)
    (h : extractModuleNames typing = [nm, nm]) :
    generateTyping cfg typing = rewriteStep cfg (rewriteStep cfg typing nm) nm := by
  simp [generateTyping, h]

/-- C4 amended witness at the duplicate-identifier example. -/
theorem c4_amended_per_occurrence_witness :
    extractModuleNames dupBlob = ["A", "A"] ∧
    generateTyping dupCfg dupBlob =
      rewriteStep dupCfg (rewriteStep dupCfg dupBlob "A") "A" :=
  ⟨by decide, c4_amended_per_occurrence dupCfg dupBlob "A" (by decide)⟩

/-- C1: when the manifest filter for an identifier yields a first matching
expose key followed by further alias keys, the rewrite step declares the
primary module under the public dotted name of the first key by replacing
the quoted identifier inside the real emitted content, and appends for
every remaining alias key one separate declare-module block under the own
public dotted name of that alias key, whose body only re-exports
everything from the primary public name. -/
theorem c1_alias_rewrite (cfg : FederationConfig) (typing nm : String)
    (k0 v0 : String) (rest : List (String × String))
    (hf : cfg.exposes.filter (fun kv => endsWithJs kv.2 nm) = (k0, v0) :: rest) :
    rewriteStep cfg typing nm =
      String.intercalate "\n"
        (replaceQuoted typing nm (getModuleDeclareName cfg.name k0) ::
          rest.map (fun kv =>
            "\n            declare module \"" ++ getModuleDeclareName cfg.name kv.1 ++
              "\" \x7b\n                export * from \"" ++
              getModuleDeclareName cfg.name k0 ++ "\"\n            \x7d\n        ")) := by
  simp only [rewriteStep, chooseExposeName, aliasKeys, hf, createAliasModule, List.map_map]
  rfl

set_option maxRecDepth 8192 in
/-- C1 witness: the alias example of the specification, with a full
evaluation of the rewriting pipeline on a concrete emitted blob. -/
theorem c1_alias_rewrite_witness :
    exampleCfg.exposes.filter (fun kv => endsWithJs kv.2 "src/Button.ts") =
      [("./Button", "src/Button.ts"), ("./Btn", "src/Button.ts")] ∧
    rewriteStep exampleCfg exampleBlob "src/Button.ts" =
      String.intercalate "\n"
        (replaceQuoted exampleBlob "src/Button.ts"
            (getModuleDeclareName exampleCfg.name "./Button") ::
          [("./Btn", "src/Button.ts")].map (fun kv =>
            "\n            declare module \"" ++ getModuleDeclareName exampleCfg.name kv.1 ++
              "\" \x7b\n                export * from \"" ++
              getModuleDeclareName exampleCfg.name "./Button" ++
              "\"\n            \x7d\n        ")) ∧
    generateTyping exampleCfg exampleBlob =
      "declare module \"app/Button\" \x7b\n    export const Button: string;\n\x7d\n\n\n            declare module \"app/Btn\" \x7b\n                export * from \"app/Button\"\n            \x7d\n        " :=
  ⟨by decide,
    c1_alias_rewrite exampleCfg exampleBlob "src/Button.ts" "./Button" "src/Button.ts"
      [("./Btn", "src/Button.ts")] (by decide),
    by decide⟩

/-- C3: when a listing holds no entry named federation.config.json, the
search over a leading block of non-queueable entries followed by a first
queueable directory and arbitrary further siblings equals the search
inside that first directory alone: sibling entries after the first queued
directory are never explored, whatever they hold. -/
theorem c3_only_first_queued_dir (base n : String) (pre cs rest : List Entry)
    (hnocfg : ∀ e ∈ pre ++ Entry.dir n cs :: rest, entryName e ≠ "federation.config.json")
    (hpre : ∀ e ∈ pre, queueable base e = false)
    (hnm : containsSubstr (pathJoin base n) "node_modules" = false) :
    findFederationConfig base (pre ++ Entry.dir n cs :: rest) =
      findFederationConfig (pathJoin base n) cs := by
  have hfind := find_config_none _ hnocfg
  simp only [findFederationConfig, hfind]
  rw [firstQueued_append_not_queueable base pre _ hpre]
  simp only [firstQueued, hnm, Bool.false_eq_true, if_false]

/-- C3 witness: with the manifest only inside the second sibling
directory, the search explores the first directory alone and misses the
manifest entirely. -/
theorem c3_only_first_queued_dir_witness :
    (∀ e ∈ ([Entry.file "README.md"] ++ Entry.dir "a" [] ::
        [Entry.dir "b" [Entry.file "federation.config.json"]]),
      entryName e ≠ "federation.config.json") ∧
    (∀ e ∈ [Entry.file "README.md"], queueable "." e = false) ∧
    containsSubstr (pathJoin "." "a") "node_modules" = false ∧
    findFederationConfig "."
        ([Entry.file "README.md"] ++ Entry.dir "a" [] ::
          [Entry.dir "b" [Entry.file "federation.config.json"]]) =
      findFederationConfig (pathJoin "." "a") [] ∧
    findFederationConfig (pathJoin "." "a") [] = none := by
  refine ⟨by decide, by decide, by decide, ?_, ?_⟩
  · exact c3_only_first_queued_dir "." "a" [Entry.file "README.md"] []
      [Entry.dir "b" [Entry.file "federation.config.json"]]
      (by decide) (by decide) (by decide)
  · simp [findFederationConfig, firstQueued, List.find?]

/-- C7: when the search finds no manifest anywhere it reaches, the run
exits with status 1 and prints to the standard error channel a message
containing the text Unable to find. -/
theorem c7_missing_manifest (inp : RunInput) (fs0 : FsState)
    (h : findFederationConfig "./" inp.tree = none) :
    (runCli inp fs0).exitCode = 1 ∧
    ∃ m ∈ (runCli inp fs0).stderr, containsSubstr m "Unable to find" = true := by
  refine ⟨by simp [runCli, h], ?_⟩
  refine ⟨"ERROR: Unable to find a federation.config.json file in this package", ?_, by decide⟩
  simp [runCli, h]

/-- C7 witness: a tree whose only directory holds nothing. -/
theorem c7_missing_manifest_witness :
    findFederationConfig "./" missInput.tree = none ∧
    ((runCli missInput []).exitCode = 1 ∧
      ∃ m ∈ (runCli missInput []).stderr, containsSubstr m "Unable to find" = true) := by
  have hc : containsSubstr (pathJoin "./" "src") "node_modules" = false := by decide
  have hfind : findFederationConfig "./" missInput.tree = none := by
    simp [missInput, findFederationConfig, firstQueued, hc, List.find?, entryName]
  exact ⟨hfind, c7_missing_manifest missInput [] hfind⟩

/-- C2 counterexample: in the emission-skip example the run exits 0, yet
the previously published declaration file at the output path is no longer
present after the run, against the claim that it is still present and
unchanged. -/
theorem c2_counterexample :
    (runCli skipInput skipFs0).exitCode = 0 ∧
    fsLookup skipFs0 exOutPath = some "previously published" ∧
    fsLookup (runCli skipInput skipFs0).fs exOutPath = none := by
  decide

/-- C2 amended: when the manifest is found and the engine reports an
emission skip, the run exits 0 and writes nothing, but the declaration
file at the output path has already been deleted by the pre-emission
unlink, so a previously published declaration file is absent after the
run rather than still present and unchanged. -/
theorem c2_amended_skip_deletes (inp : RunInput) (fs0 : FsState) (p : String)
    (hfound : findFederationConfig "./" inp.tree = some p)
    (hskip : inp.emit = EmitResult.skipped) :
    (runCli inp fs0).exitCode = 0 ∧
    (runCli inp fs0).fs = fsRemove fs0 (outFilePath inp) ∧
    fsLookup (runCli inp fs0).fs (outFilePath inp) = none := by
  simp [runCli, hfound, hskip, preEmitFs, fsLookup_fsRemove_self]

/-- C2 amended witness at the emission-skip example. -/
theorem c2_amended_skip_deletes_witness :
    findFederationConfig "./" skipInput.tree = some "federation.config.json" ∧
    skipInput.emit = EmitResult.skipped ∧
    ((runCli skipInput skipFs0).exitCode = 0 ∧
      (runCli skipInput skipFs0).fs = fsRemove skipFs0 (outFilePath skipInput) ∧
      fsLookup (runCli skipInput skipFs0).fs (outFilePath skipInput) = none) :=
  ⟨by decide, rfl,
    c2_amended_skip_deletes skipInput skipFs0 "federation.config.json" (by decide) rfl⟩

/-- C9: on every run that reaches the emission stage, the file at the
declaration output path is deleted before the engine is invoked, so when
the run then ends early on an emission skip or a thrown exception, the
previously published declaration file has already been removed rather
than left in place. -/
theorem c9_unlink_before_emit (inp : RunInput) (fs0 : FsState) (p : String)
    (hfound : findFederationConfig "./" inp.tree = some p)
    (hearly : inp.emit = EmitResult.skipped ∨ inp.emit = EmitResult.throws) :
    fsLookup (preEmitFs inp fs0) (outFilePath inp) = none ∧
    fsLookup (runCli inp fs0).fs (outFilePath inp) = none := by
  refine ⟨fsLookup_fsRemove_self fs0 (outFilePath inp), ?_⟩
  rcases hearly with h | h <;>
    simp [runCli, hfound, h, preEmitFs, fsLookup_fsRemove_self]

/-- C9 witness at the engine-throw example with a previously published
declaration file. -/
theorem c9_unlink_before_emit_witness :
    findFederationConfig "./" throwInput.tree = some "federation.config.json" ∧
    (fsLookup (preEmitFs throwInput skipFs0) (outFilePath throwInput) = none ∧
      fsLookup (runCli throwInput skipFs0).fs (outFilePath throwInput) = none) :=
  ⟨by decide,
    c9_unlink_before_emit throwInput skipFs0 "federation.config.json" (by decide) (Or.inr rfl)⟩

/-- C8: the package descriptor is never overwritten: a descriptor present
before the run holds identical contents after the run whatever the engine
outcome, and when the output directory does not lie under a node_modules
@types root no descriptor is created either, so the bundled template is
copied only under that root and only when no descriptor exists yet. -/
theorem c8_package_descriptor_preserved (inp : RunInput) (fs0 : FsState)
    (hof : outFilePath inp ≠ packageJsonPath inp)
    (hidx : indexFilePath inp ≠ packageJsonPath inp) :
    (∀ c, fsLookup fs0 (packageJsonPath inp) = some c →
      fsLookup (runCli inp fs0).fs (packageJsonPath inp) = some c) ∧
    (fsLookup fs0 (packageJsonPath inp) = none →
      containsSubstr (outputDirOf inp) (pathJoin "node_modules" "@types") = false →
      fsLookup (runCli inp fs0).fs (packageJsonPath inp) = none) := by
  have hofs : packageJsonPath inp ≠ outFilePath inp := fun e => hof e.symm
  have hidx2 : packageJsonPath inp ≠ indexFilePath inp := fun e => hidx e.symm
  cases hcfg : findFederationConfig "./" inp.tree with
  | none =>
    constructor
    · intro c hc
      simpa [runCli, hcfg] using hc
    · intro hc hroot
      simpa [runCli, hcfg] using hc
  | some p =>
    cases hemit : inp.emit with
    | skipped =>
      constructor
      · intro c hc
        simp only [runCli, hcfg, hemit]
        rw [preEmitFs, fsLookup_fsRemove_ne fs0 _ _ hofs]
        exact hc
      · intro hc hroot
        simp only [runCli, hcfg, hemit]
        rw [preEmitFs, fsLookup_fsRemove_ne fs0 _ _ hofs]
        exact hc
    | throws =>
      constructor
      · intro c hc
        simp only [runCli, hcfg, hemit]
        rw [preEmitFs, fsLookup_fsRemove_ne fs0 _ _ hofs]
        exact hc
      · intro hc hroot
        simp only [runCli, hcfg, hemit]
        rw [preEmitFs, fsLookup_fsRemove_ne fs0 _ _ hofs]
        exact hc
    | emitted blob =>
      have hbase : fsLookup (fsWrite (fsWrite (preEmitFs inp fs0) (outFilePath inp) blob)
          (outFilePath inp) (generateTyping inp.config blob)) (packageJsonPath inp) =
          fsLookup fs0 (packageJsonPath inp) := by
        rw [fsLookup_fsWrite_ne _ _ _ _ hofs, fsLookup_fsWrite_ne _ _ _ _ hofs,
          preEmitFs, fsLookup_fsRemove_ne fs0 _ _ hofs]
      constructor
      · intro c hc
        simp only [runCli, hcfg, hemit]
        rw [fsLookup_indexStage_other _ _ _ hidx2]
        apply pkgStage_preserved
        rw [hbase]
        exact hc
      · intro hc hroot
        simp only [runCli, hcfg, hemit]
        rw [fsLookup_indexStage_other _ _ _ hidx2, pkgStage_not_under_root _ _ hroot, hbase]
        exact hc

/-- C8 witness at the successful-emission example with a pre-seeded,
hand-edited descriptor. -/
theorem c8_package_descriptor_preserved_witness :
    outFilePath emitInput ≠ packageJsonPath emitInput ∧
    indexFilePath emitInput ≠ packageJsonPath emitInput ∧
    fsLookup pkgFs0 (packageJsonPath emitInput) = some "custom contents" ∧
    fsLookup (runCli emitInput pkgFs0).fs (packageJsonPath emitInput) =
      some "custom contents" :=
  ⟨by decide, by decide, by decide,
    (c8_package_descriptor_preserved emitInput pkgFs0 (by decide) (by decide)).1
      "custom contents" (by decide)⟩

end FederatedTypes
